import Mathlib

/-!
Verification of the AUSWO points-calculator scoring engine
(src/AUSWO/app/main.py) against its natural-language specification.

Numeric score values (ages, English band scores, year counts, bucket
bounds) are embedded as rationals; point values from the rule table are
embedded as integers, matching the JSON rule-table contract.  The scoring
functions are shallow embeddings of the pure Python functions
`_bucket_points`, `score_age`, `score_english`, `score_education`,
`score_experience`, `score_au_study`, `score_optional`,
`score_state_nomination` and of the aggregation in `calc_points`.
-/

namespace AUSWO

/-- The English test discriminator: `test: Literal["ielts", "pte"]`. -/
inductive Test where
  | ielts
  | pte
deriving DecidableEq, Repr

/-- One row of a bucketed range table: `{min, max?, points}`.
`max` is optional; the code reads it with `b.get("max", float("inf"))`. -/
structure Bucket where
  min : ℚ
  max : Option ℚ
  points : ℤ
deriving DecidableEq, Repr

/-- The test in `_bucket_points`:
`value >= b["min"] and value <= b.get("max", float("inf"))`,
with the missing-`max` case folded in (`v ≤ +∞` is always true). -/
def bucketMatch (b : Bucket) (value : ℚ) : Bool :=
  decide (b.min ≤ value) &&
    (match b.max with
     | none => true
     | some m => decide (value ≤ m))

/-- Shallow embedding of `_bucket_points` (main.py lines 57–62): scan the
bucket list in order, return the `points` of the first bucket whose range
contains `value`, and `0` when the scan falls through. -/
def _bucket_points : List Bucket → ℚ → ℤ
  | [], _ => 0
  | b :: rest, value =>
    if bucketMatch b value then b.points else _bucket_points rest value

/-- Spec-side reading of the bucket condition `min ≤ v ≤ max` with `max`
taken as +∞ when absent (spec §4.2). -/
def BucketAccepts (b : Bucket) (v : ℚ) : Prop :=
  b.min ≤ v ∧ ∀ m, b.max = some m → v ≤ m

instance (b : Bucket) (v : ℚ) : Decidable (BucketAccepts b v) := by
  unfold BucketAccepts; infer_instance

theorem bucketMatch_iff (b : Bucket) (v : ℚ) :
    bucketMatch b v = true ↔ BucketAccepts b v := by
  unfold bucketMatch BucketAccepts
  cases h : b.max with
  | none =>
    simp only [Bool.and_true, decide_eq_true_eq]
    constructor
    · intro hmin; exact ⟨hmin, fun m hm => by simp [h] at hm⟩
    · intro ⟨hmin, _⟩; exact hmin
  | some m =>
    simp only [Bool.and_eq_true, decide_eq_true_eq]
    constructor
    · intro ⟨hmin, hmax⟩
      exact ⟨hmin, fun m' hm' => by injection hm' with e; rw [← e]; exact hmax⟩
    · intro ⟨hmin, hmax⟩; exact ⟨hmin, hmax m rfl⟩

/-- C1: `_bucket_points` returns the points of the first bucket, in
table-definition order, whose range (`min ≤ v ≤ max`, `max` defaulting to
+∞ when absent) contains `v`, and returns 0 when no bucket matches —
including on the empty sequence. -/
theorem bucket_points_first_match_or_zero (bs : List Bucket) (v : ℚ) :
    (∃ pre b post, bs = pre ++ b :: post ∧ BucketAccepts b v ∧
        (∀ b' ∈ pre, ¬ BucketAccepts b' v) ∧ _bucket_points bs v = b.points) ∨
    ((∀ b ∈ bs, ¬ BucketAccepts b v) ∧ _bucket_points bs v = 0) := by
  induction bs with
  | nil =>
    right
    exact ⟨fun b hb => absurd hb (List.not_mem_nil b), rfl⟩
  | cons b rest ih =>
    by_cases hb : BucketAccepts b v
    · left
      refine ⟨[], b, rest, rfl, hb, ?_, ?_⟩
      · intro b' hb'; cases hb'
      · simp [_bucket_points, (bucketMatch_iff b v).mpr hb]
    · have hstep : _bucket_points (b :: rest) v = _bucket_points rest v := by
        have : bucketMatch b v = false := by
          cases h : bucketMatch b v with
          | false => rfl
          | true => exact absurd ((bucketMatch_iff b v).mp h) hb
        simp [_bucket_points, this]
      rcases ih with ⟨pre, c, post, heq, hc, hpre, hval⟩ | ⟨hnone, hval⟩
      · left
        refine ⟨b :: pre, c, post, by simp [heq], hc, ?_, by rw [hstep]; exact hval⟩
        intro b' hb'
        rcases List.mem_cons.mp hb' with h' | h'
        · rw [h']; exact hb
        · exact hpre b' h'
      · right
        refine ⟨?_, by rw [hstep]; exact hval⟩
        intro c hc
        rcases List.mem_cons.mp hc with h' | h'
        · rw [h']; exact hb
        · exact hnone c h'

/-- The caller-supplied English result (pydantic model `English`):
`overall` and the four skills are all optional. -/
structure English where
  test : Test
  overall : Option ℚ
  listening : Option ℚ
  reading : Option ℚ
  writing : Option ℚ
  speaking : Option ℚ
deriving DecidableEq, Repr

/-- One row of a per-skill band table (`ielts_bands` / `pte_bands`):
keyed only by a `min` threshold. -/
structure Band where
  min : ℚ
  points : ℤ
deriving DecidableEq, Repr

/-- The `english` section of the rule table. -/
structure EnglishTable where
  ielts_overall : List Bucket
  pte_overall : List Bucket
  ielts_bands : List Band
  pte_bands : List Band
deriving DecidableEq, Repr

/-- The comparison `sorted(..., key=lambda x: x["min"], reverse=True)` sorts
by: `a` may precede `b` when `b`'s key does not exceed `a`'s. -/
def bandGE (a b : Band) : Bool := decide (b.min ≤ a.min)

/-- Python's `sorted(rows, key=lambda x: x["min"], reverse=True)`: a stable
descending sort on the `min` key, embedded with the stable `mergeSort`. -/
def sortDescMin (rows : List Band) : List Band := rows.mergeSort bandGE

/-- The fall-through loop `for row in ...: if mn >= row["min"]: return
row["points"]`, returning 0 when the loop is exhausted. -/
def bandScan : List Band → ℚ → ℤ
  | [], _ => 0
  | row :: rest, mn => if row.min ≤ mn then row.points else bandScan rest mn

/-- Shallow embedding of `score_english` (main.py lines 67–91): if `overall`
is present, bucket-lookup on the matching overall table; otherwise, if all
four skills are present, scan the matching band table sorted descending by
`min` with the least skill value; otherwise 0. -/
def score_english (t : EnglishTable) (e : English) : ℤ :=
  match e.overall with
  | some ov =>
    match e.test with
    | Test.ielts => _bucket_points t.ielts_overall ov
    | Test.pte => _bucket_points t.pte_overall ov
  | none =>
    match e.listening, e.reading, e.writing, e.speaking with
    | some l, some r, some w, some s =>
      let mn := min (min (min l r) w) s
      match e.test with
      | Test.ielts => bandScan (sortDescMin t.ielts_bands) mn
      | Test.pte => bandScan (sortDescMin t.pte_bands) mn
    | _, _, _, _ => 0

/-- The `work_experience` section of the rule table. -/
structure WorkExpTable where
  overseas : List Bucket
  australia : List Bucket
  mode : String
  cap_points : ℤ
deriving DecidableEq, Repr

/-- The `australia_study` section of the rule table. -/
structure AuStudyTable where
  points : ℤ
  regional_bonus : ℤ
deriving DecidableEq, Repr

/-- The rule table `RULES`, loaded once at startup. -/
structure Rules where
  age : List Bucket
  english : EnglishTable
  education_mapping : List (String × ℤ)
  work_experience : WorkExpTable
  australia_study : AuStudyTable
  professional_year_points : ℤ
  naati_points : ℤ
  partner : List (String × ℤ)
  state_nomination : List (String × ℤ)
deriving DecidableEq, Repr

/-- Python's `dict.get(key, 0)` over a mapping embedded as an association
list with distinct keys. -/
def mapGet (m : List (String × ℤ)) (k : String) : ℤ :=
  match m.lookup k with
  | some v => v
  | none => 0

/-- `score_age`: bucket lookup of the integer age against the age table. -/
def score_age (rules : Rules) (age : ℕ) : ℤ :=
  _bucket_points rules.age (age : ℚ)

/-- `score_education`: `RULES["education"]["mapping"].get(level, 0)`. -/
def score_education (rules : Rules) (level : String) : ℤ :=
  mapGet rules.education_mapping level

/-- The pydantic model `WorkExp` (both year counts are `int ≥ 0`). -/
structure WorkExp where
  overseas_years : ℕ
  aus_years : ℕ
deriving DecidableEq, Repr

/-- Shallow embedding of `score_experience` (main.py lines 96–104). -/
def score_experience (rules : Rules) (exp : WorkExp) : ℤ :=
  let r := rules.work_experience
  let over := _bucket_points r.overseas (exp.overseas_years : ℚ)
  let aus := _bucket_points r.australia (exp.aus_years : ℚ)
  if r.mode = "sum_cap" then min r.cap_points (over + aus)
  else if r.mode = "max_only" then max over aus
  else 0

/-- The pydantic model `AuStudy`. -/
structure AuStudy where
  completed : Bool
  regional : Bool
deriving DecidableEq, Repr

/-- Shallow embedding of `score_au_study` (main.py lines 106–112): start
from 0, add base points when `completed`, then add the regional bonus when
additionally `regional`. -/
def score_au_study (rules : Rules) (stu : AuStudy) : ℤ :=
  let pts : ℤ := 0
  if stu.completed then
    let pts := pts + rules.australia_study.points
    if stu.regional then pts + rules.australia_study.regional_bonus else pts
  else pts

/-- Shallow embedding of `score_optional` (main.py lines 114–119): the
three-key dict it returns, in insertion order. -/
def score_optional (rules : Rules) (professional_year naati : Bool)
    (partner : String) : List (String × ℤ) :=
  [("professional_year", if professional_year then rules.professional_year_points else 0),
   ("naati", if naati then rules.naati_points else 0),
   ("partner", mapGet rules.partner partner)]

/-- `score_state_nomination`: `RULES["state_nomination"].get(visa, 0)`. -/
def score_state_nomination (rules : Rules) (visa : String) : ℤ :=
  mapGet rules.state_nomination visa

/-- The pydantic model `CalcRequest` (enum and range constraints are the
HTTP layer's concern; the scorers read the fields as given). -/
structure CalcRequest where
  visa : String
  age : ℕ
  english : English
  education : String
  work_experience : WorkExp
  australia_study : AuStudy
  professional_year : Bool
  naati : Bool
  partner : String
deriving DecidableEq, Repr

/-- The response of `calc_points`: visa echoed back, the breakdown dict in
its insertion order, and the total. -/
structure CalcResult where
  visa : String
  total : ℤ
  breakdown : List (String × ℤ)
deriving DecidableEq, Repr

/-- Shallow embedding of `calc_points` (main.py lines 126–153): build the
breakdown dict in the source's insertion order (`br.update(opt)` appends
the three fresh keys of `score_optional`), then `total = sum(br.values())`. -/
def calc_points (rules : Rules) (req : CalcRequest) : CalcResult :=
  let br : List (String × ℤ) :=
    [("age", score_age rules req.age),
     ("english", score_english rules.english req.english),
     ("education", score_education rules req.education),
     ("work_experience", score_experience rules req.work_experience),
     ("australia_study", score_au_study rules req.australia_study)] ++
    score_optional rules req.professional_year req.naati req.partner ++
    [("state_nomination", score_state_nomination rules req.visa)]
  { visa := req.visa, total := (br.map Prod.snd).sum, breakdown := br }

/-- C2: when `overall` is present, `score_english` is the bucket lookup of
that value against `ielts_overall` for an IELTS result and `pte_overall`
for a PTE result, regardless of any per-skill data. -/
theorem score_english_overall_path (t : EnglishTable) (e : English) (ov : ℚ)
    (h : e.overall = some ov) :
    score_english t e =
      (match e.test with
       | Test.ielts => _bucket_points t.ielts_overall ov
       | Test.pte => _bucket_points t.pte_overall ov) := by
  unfold score_english
  rw [h]

/-- Witness for C2: an IELTS result with overall 8 and four (ignored)
skill scores is scored from the `ielts_overall` table. -/
theorem score_english_overall_path_witness :
    score_english
      ⟨[⟨7, none, 10⟩, ⟨8, none, 20⟩], [⟨65, none, 10⟩], [⟨8, 20⟩], [⟨79, 20⟩]⟩
      ⟨Test.ielts, some 8, some 5, some 5, some 5, some 5⟩ =
      _bucket_points [⟨7, none, 10⟩, ⟨8, none, 20⟩] 8 :=
  score_english_overall_path
    ⟨[⟨7, none, 10⟩, ⟨8, none, 20⟩], [⟨65, none, 10⟩], [⟨8, 20⟩], [⟨79, 20⟩]⟩
    ⟨Test.ielts, some 8, some 5, some 5, some 5, some 5⟩ 8 rfl

/-- C4: with no `overall` and at least one skill missing, `score_english`
falls through both paths and returns 0. -/
theorem score_english_partial_skills_zero (t : EnglishTable) (e : English)
    (hov : e.overall = none)
    (hmiss : e.listening = none ∨ e.reading = none ∨ e.writing = none ∨
      e.speaking = none) :
    score_english t e = 0 := by
  cases hl : e.listening <;> cases hr : e.reading <;> cases hw : e.writing <;>
    cases hs : e.speaking <;>
    simp only [score_english, hov, hl, hr, hw, hs] <;>
    simp only [hl, hr, hw, hs, Option.some.injEq, false_or, or_false,
      reduceCtorEq] at hmiss

/-- Witness for C4: IELTS, no overall, speaking missing, scores 0. -/
theorem score_english_partial_skills_zero_witness :
    score_english
      ⟨[⟨7, none, 10⟩, ⟨8, none, 20⟩], [⟨65, none, 10⟩], [⟨8, 20⟩], [⟨79, 20⟩]⟩
      ⟨Test.ielts, none, some 8, some 8, some 8, none⟩ = 0 :=
  score_english_partial_skills_zero
    ⟨[⟨7, none, 10⟩, ⟨8, none, 20⟩], [⟨65, none, 10⟩], [⟨8, 20⟩], [⟨79, 20⟩]⟩
    ⟨Test.ielts, none, some 8, some 8, some 8, none⟩ rfl
    (Or.inr (Or.inr (Or.inr rfl)))

theorem bandGE_trans (a b c : Band) : bandGE a b → bandGE b c → bandGE a c := by
  simp only [bandGE, decide_eq_true_eq]
  exact fun h1 h2 => le_trans h2 h1

theorem bandGE_total (a b : Band) : bandGE a b || bandGE b a := by
  simp only [bandGE, Bool.or_eq_true, decide_eq_true_eq]
  exact le_total b.min a.min

theorem sortDescMin_pairwise (rows : List Band) :
    (sortDescMin rows).Pairwise (fun a b => b.min ≤ a.min) := by
  have h := List.sorted_mergeSort bandGE_trans bandGE_total rows
  exact h.imp (fun hab => by simpa [bandGE] using hab)

theorem sortDescMin_perm (rows : List Band) : List.Perm (sortDescMin rows) rows :=
  List.mergeSort_perm rows bandGE

/-- Spec-side reading of the per-skill band rule: the result is the points
of a band whose `min` threshold is met and is highest among all met
thresholds in the table, or 0 when no threshold is met. -/
def HighestQualifying (tbl : List Band) (mn : ℚ) (res : ℤ) : Prop :=
  (∃ b ∈ tbl, b.min ≤ mn ∧ res = b.points ∧
    ∀ b' ∈ tbl, b'.min ≤ mn → b'.min ≤ b.min) ∨
  ((∀ b ∈ tbl, ¬ b.min ≤ mn) ∧ res = 0)

theorem bandScan_sorted_spec (rows : List Band) (mn : ℚ)
    (hsorted : rows.Pairwise (fun a b => b.min ≤ a.min)) :
    HighestQualifying rows mn (bandScan rows mn) := by
  induction rows with
  | nil =>
    right
    exact ⟨fun b hb => absurd hb (List.not_mem_nil b), rfl⟩
  | cons a rest ih =>
    rcases List.pairwise_cons.mp hsorted with ⟨ha, hrest⟩
    by_cases h : a.min ≤ mn
    · left
      refine ⟨a, List.mem_cons_self a rest, h, by simp [bandScan, h], ?_⟩
      intro b' hb' _
      rcases List.mem_cons.mp hb' with h' | h'
      · rw [h']
      · exact ha b' h'
    · have hstep : bandScan (a :: rest) mn = bandScan rest mn := by
        simp [bandScan, h]
      rcases ih hrest with ⟨b, hb, hble, hval, hmax⟩ | ⟨hnone, hval⟩
      · left
        refine ⟨b, List.mem_cons_of_mem a hb, hble, hstep ▸ hval, ?_⟩
        intro b' hb' hb'le
        rcases List.mem_cons.mp hb' with h' | h'
        · exact absurd (h' ▸ hb'le) h
        · exact hmax b' h' hb'le
      · right
        refine ⟨?_, hstep ▸ hval⟩
        intro b hb
        rcases List.mem_cons.mp hb with h' | h'
        · rw [h']; exact h
        · exact hnone b h'

theorem highestQualifying_bandScan (rows : List Band) (mn : ℚ) :
    HighestQualifying rows mn (bandScan (sortDescMin rows) mn) := by
  have hperm := sortDescMin_perm rows
  rcases bandScan_sorted_spec (sortDescMin rows) mn (sortDescMin_pairwise rows) with
    ⟨b, hb, h1, h2, h3⟩ | ⟨h1, h2⟩
  · left
    exact ⟨b, hperm.mem_iff.mp hb, h1, h2,
      fun b' hb' hle => h3 b' (hperm.mem_iff.mpr hb') hle⟩
  · right
    exact ⟨fun b hb => h1 b (hperm.mem_iff.mpr hb), h2⟩

/-- C3: with no `overall` and all four skills present, `score_english`
evaluates the least of the four skills against the test's band table and
returns the points of a band whose `min` threshold is met and is the
highest met threshold in the table — independent of table order — and 0
when no threshold is met. -/
theorem score_english_skill_band (t : EnglishTable) (e : English) (l r w s : ℚ)
    (hov : e.overall = none)
    (hl : e.listening = some l) (hr : e.reading = some r)
    (hw : e.writing = some w) (hs : e.speaking = some s) :
    HighestQualifying
      (match e.test with
       | Test.ielts => t.ielts_bands
       | Test.pte => t.pte_bands)
      (min (min (min l r) w) s)
      (score_english t e) := by
  have hev : score_english t e =
      bandScan
        (sortDescMin (match e.test with
          | Test.ielts => t.ielts_bands
          | Test.pte => t.pte_bands))
        (min (min (min l r) w) s) := by
    unfold score_english
    rw [hov, hl, hr, hw, hs]
    cases e.test <;> simp [min_assoc]
  rw [hev]
  exact highestQualifying_bandScan _ _

/-- Witness for C3: IELTS skills 8.5/8/7.5/7 give minimum 7, which meets
the 7 threshold but not the 8 threshold of the band table. -/
theorem score_english_skill_band_witness :
    HighestQualifying [⟨8, 20⟩, ⟨7, 10⟩] (min (min (min 8.5 8) 7.5) 7)
      (score_english
        ⟨[⟨7, none, 10⟩, ⟨8, none, 20⟩], [⟨65, none, 10⟩], [⟨8, 20⟩, ⟨7, 10⟩], [⟨79, 20⟩]⟩
        ⟨Test.ielts, none, some 8.5, some 8, some 7.5, some 7⟩) :=
  score_english_skill_band
    ⟨[⟨7, none, 10⟩, ⟨8, none, 20⟩], [⟨65, none, 10⟩], [⟨8, 20⟩, ⟨7, 10⟩], [⟨79, 20⟩]⟩
    ⟨Test.ielts, none, some 8.5, some 8, some 7.5, some 7⟩
    8.5 8 7.5 7 rfl rfl rfl rfl rfl

/-- C10: when `overall` is present, the English score does not depend on
the four per-skill fields (two inputs agreeing on `test` and `overall`
score the same), and an `overall` of 0 still selects the overall path. -/
theorem score_english_overall_priority (t : EnglishTable) (e1 e2 : English)
    (ov : ℚ) (htest : e1.test = e2.test)
    (h1 : e1.overall = some ov) (h2 : e2.overall = some ov) :
    score_english t e1 = score_english t e2 ∧
    (ov = 0 → score_english t e1 =
      (match e1.test with
       | Test.ielts => _bucket_points t.ielts_overall 0
       | Test.pte => _bucket_points t.pte_overall 0)) := by
  constructor
  · unfold score_english
    rw [h1, h2, htest]
  · intro h0
    unfold score_english
    rw [h1, h0]

/-- Witness for C10: an IELTS result with overall 0 and four top skill
scores is scored like one with overall 0 and four bottom skill scores,
from the overall table at 0 — not from the skills. -/
theorem score_english_overall_priority_witness :
    score_english
        ⟨[⟨7, none, 10⟩, ⟨8, none, 20⟩], [⟨65, none, 10⟩], [⟨8, 20⟩], [⟨7, 10⟩]⟩
        ⟨Test.ielts, some 0, some 9, some 9, some 9, some 9⟩ =
      score_english
        ⟨[⟨7, none, 10⟩, ⟨8, none, 20⟩], [⟨65, none, 10⟩], [⟨8, 20⟩], [⟨7, 10⟩]⟩
        ⟨Test.ielts, some 0, some 1, some 1, some 1, some 1⟩ ∧
    ((0 : ℚ) = 0 → score_english
        ⟨[⟨7, none, 10⟩, ⟨8, none, 20⟩], [⟨65, none, 10⟩], [⟨8, 20⟩], [⟨7, 10⟩]⟩
        ⟨Test.ielts, some 0, some 9, some 9, some 9, some 9⟩ =
      _bucket_points [⟨7, none, 10⟩, ⟨8, none, 20⟩] 0) :=
  score_english_overall_priority
    ⟨[⟨7, none, 10⟩, ⟨8, none, 20⟩], [⟨65, none, 10⟩], [⟨8, 20⟩], [⟨7, 10⟩]⟩
    ⟨Test.ielts, some 0, some 9, some 9, some 9, some 9⟩
    ⟨Test.ielts, some 0, some 1, some 1, some 1, some 1⟩ 0 rfl rfl rfl

/-- C5: `score_experience` combines the two independent bucket lookups per
the table's mode — `sum_cap` takes the capped sum (hence never exceeds
`cap_points`), `max_only` takes the larger sub-score, and any other mode
string yields 0. -/
theorem score_experience_modes (rules : Rules) (exp : WorkExp) :
    score_experience rules exp =
      (if rules.work_experience.mode = "sum_cap" then
        min rules.work_experience.cap_points
          (_bucket_points rules.work_experience.overseas (exp.overseas_years : ℚ) +
            _bucket_points rules.work_experience.australia (exp.aus_years : ℚ))
      else if rules.work_experience.mode = "max_only" then
        max (_bucket_points rules.work_experience.overseas (exp.overseas_years : ℚ))
          (_bucket_points rules.work_experience.australia (exp.aus_years : ℚ))
      else 0) ∧
    (rules.work_experience.mode = "sum_cap" →
      score_experience rules exp ≤ rules.work_experience.cap_points) ∧
    (rules.work_experience.mode = "max_only" →
      score_experience rules exp =
        max (_bucket_points rules.work_experience.overseas (exp.overseas_years : ℚ))
          (_bucket_points rules.work_experience.australia (exp.aus_years : ℚ))) := by
  refine ⟨rfl, ?_, ?_⟩
  · intro hmode
    simp only [score_experience, hmode, reduceIte]
    exact min_le_left _ _
  · intro hmode
    simp [score_experience, hmode]

/-- C6: `score_au_study` is 0 whenever `completed` is false (even with
`regional` true); when `completed` is true it is the base points, plus the
regional bonus exactly when `regional` is true. -/
theorem score_au_study_spec (rules : Rules) (stu : AuStudy) :
    (stu.completed = false → score_au_study rules stu = 0) ∧
    (stu.completed = true → stu.regional = true →
      score_au_study rules stu =
        rules.australia_study.points + rules.australia_study.regional_bonus) ∧
    (stu.completed = true → stu.regional = false →
      score_au_study rules stu = rules.australia_study.points) := by
  refine ⟨?_, ?_, ?_⟩
  · intro h
    simp [score_au_study, h]
  · intro hc hr
    simp [score_au_study, hc, hr]
  · intro hc hr
    simp [score_au_study, hc, hr]

theorem bucket_points_nonneg (bs : List Bucket) (v : ℚ)
    (h : ∀ b ∈ bs, 0 ≤ b.points) : 0 ≤ _bucket_points bs v := by
  induction bs with
  | nil => simp [_bucket_points]
  | cons b rest ih =>
    by_cases hb : bucketMatch b v = true
    · simpa [_bucket_points, hb] using h b (List.mem_cons_self b rest)
    · simp only [_bucket_points, hb, Bool.false_eq_true, if_false]
      exact ih fun b' hb' => h b' (List.mem_cons_of_mem b hb')

theorem bandScan_nonneg (rows : List Band) (mn : ℚ)
    (h : ∀ b ∈ rows, 0 ≤ b.points) : 0 ≤ bandScan rows mn := by
  induction rows with
  | nil => simp [bandScan]
  | cons a rest ih =>
    by_cases ha : a.min ≤ mn
    · simpa [bandScan, ha] using h a (List.mem_cons_self a rest)
    · simp only [bandScan, if_neg ha]
      exact ih fun b hb => h b (List.mem_cons_of_mem a hb)

theorem mapGet_nonneg (m : List (String × ℤ)) (k : String)
    (h : ∀ p ∈ m, 0 ≤ p.2) : 0 ≤ mapGet m k := by
  unfold mapGet
  cases hl : m.lookup k with
  | none => exact le_refl 0
  | some v =>
    obtain ⟨l₁, l₂, heq, -⟩ := List.lookup_eq_some_iff.mp hl
    exact h (k, v) (heq ▸ List.mem_append_right l₁ (List.mem_cons_self _ l₂))

theorem score_english_nonneg (t : EnglishTable) (e : English)
    (h1 : ∀ b ∈ t.ielts_overall, 0 ≤ b.points)
    (h2 : ∀ b ∈ t.pte_overall, 0 ≤ b.points)
    (h3 : ∀ b ∈ t.ielts_bands, 0 ≤ b.points)
    (h4 : ∀ b ∈ t.pte_bands, 0 ≤ b.points) :
    0 ≤ score_english t e := by
  unfold score_english
  cases e.overall with
  | some ov =>
    cases e.test
    · exact bucket_points_nonneg _ _ h1
    · exact bucket_points_nonneg _ _ h2
  | none =>
    cases e.listening <;> cases e.reading <;> cases e.writing <;>
      cases e.speaking <;> try exact le_refl 0
    cases e.test
    · exact bandScan_nonneg _ _
        fun b hb => h3 b ((sortDescMin_perm _).mem_iff.mp hb)
    · exact bandScan_nonneg _ _
        fun b hb => h4 b ((sortDescMin_perm _).mem_iff.mp hb)

theorem score_experience_nonneg (rules : Rules) (exp : WorkExp)
    (hov : ∀ b ∈ rules.work_experience.overseas, 0 ≤ b.points)
    (hau : ∀ b ∈ rules.work_experience.australia, 0 ≤ b.points)
    (hcap : 0 ≤ rules.work_experience.cap_points) :
    0 ≤ score_experience rules exp := by
  have h1 := bucket_points_nonneg rules.work_experience.overseas
    (exp.overseas_years : ℚ) hov
  have h2 := bucket_points_nonneg rules.work_experience.australia
    (exp.aus_years : ℚ) hau
  simp only [score_experience]
  split
  · exact le_min hcap (add_nonneg h1 h2)
  · split
    · exact le_trans h1 (le_max_left _ _)
    · exact le_refl 0

theorem score_au_study_nonneg (rules : Rules) (stu : AuStudy)
    (hp : 0 ≤ rules.australia_study.points)
    (hb : 0 ≤ rules.australia_study.regional_bonus) :
    0 ≤ score_au_study rules stu := by
  simp only [score_au_study, zero_add]
  split
  · split
    · exact add_nonneg hp hb
    · exact hp
  · exact le_refl 0

/-- Modelled from the spec: the deployed rule table `rules.json` is loaded
at startup and is not part of the scoring-engine source tree; per the data
model (§3) and the aggregator contract (§4.10, "No category may be
negative; all are integers") every point value it defines — bucket and
band `points`, mapping values, base points, bonuses, and `cap_points` —
is a nonnegative integer. -/
def Rules.Nonneg (rules : Rules) : Prop :=
  (∀ b ∈ rules.age, 0 ≤ b.points) ∧
  (∀ b ∈ rules.english.ielts_overall, 0 ≤ b.points) ∧
  (∀ b ∈ rules.english.pte_overall, 0 ≤ b.points) ∧
  (∀ b ∈ rules.english.ielts_bands, 0 ≤ b.points) ∧
  (∀ b ∈ rules.english.pte_bands, 0 ≤ b.points) ∧
  (∀ p ∈ rules.education_mapping, 0 ≤ p.2) ∧
  (∀ b ∈ rules.work_experience.overseas, 0 ≤ b.points) ∧
  (∀ b ∈ rules.work_experience.australia, 0 ≤ b.points) ∧
  0 ≤ rules.work_experience.cap_points ∧
  0 ≤ rules.australia_study.points ∧
  0 ≤ rules.australia_study.regional_bonus ∧
  0 ≤ rules.professional_year_points ∧
  0 ≤ rules.naati_points ∧
  (∀ p ∈ rules.partner, 0 ≤ p.2) ∧
  (∀ p ∈ rules.state_nomination, 0 ≤ p.2)

instance (rules : Rules) : Decidable rules.Nonneg := by
  unfold Rules.Nonneg
  infer_instance

/-- C7: under a rule table whose point values are all nonnegative, the
breakdown covers exactly the nine categories in their fixed order, and
every value in it is nonnegative. -/
theorem calc_points_breakdown_nonneg (rules : Rules) (req : CalcRequest)
    (h : rules.Nonneg) :
    (calc_points rules req).breakdown.map Prod.fst =
      ["age", "english", "education", "work_experience", "australia_study",
       "professional_year", "naati", "partner", "state_nomination"] ∧
    ∀ p ∈ (calc_points rules req).breakdown, 0 ≤ p.2 := by
  obtain ⟨ha, hio, hpo, hib, hpb, hed, hwo, hwa, hcap, hsp, hsb, hpy, hna,
    hpa, hsn⟩ := h
  refine ⟨rfl, ?_⟩
  intro p hp
  simp only [calc_points, score_optional, List.cons_append, List.nil_append,
    List.mem_cons, List.not_mem_nil, or_false] at hp
  rcases hp with rfl | rfl | rfl | rfl | rfl | rfl | rfl | rfl | rfl
  · exact bucket_points_nonneg _ _ ha
  · exact score_english_nonneg _ _ hio hpo hib hpb
  · exact mapGet_nonneg _ _ hed
  · exact score_experience_nonneg _ _ hwo hwa hcap
  · exact score_au_study_nonneg _ _ hsp hsb
  · by_cases hf : req.professional_year = true
    · simpa [hf] using hpy
    · simp [hf]
  · by_cases hf : req.naati = true
    · simpa [hf] using hna
    · simp [hf]
  · exact mapGet_nonneg _ _ hpa
  · exact mapGet_nonneg _ _ hsn

/-- A small concrete rule table, used to instantiate witnesses. -/
def rulesDemo : Rules :=
  { age := [⟨18, some 24, 25⟩, ⟨25, some 32, 30⟩, ⟨33, some 39, 25⟩,
      ⟨40, some 44, 15⟩],
    english := ⟨[⟨7, some 7, 10⟩, ⟨8, none, 20⟩],
      [⟨65, some 78, 10⟩, ⟨79, none, 20⟩],
      [⟨8, 20⟩, ⟨7, 10⟩], [⟨79, 20⟩, ⟨65, 10⟩]⟩,
    education_mapping := [("phd", 20), ("master", 15), ("bachelor", 15),
      ("diploma", 10), ("trade", 10)],
    work_experience := ⟨[⟨3, some 4, 5⟩, ⟨5, some 7, 10⟩, ⟨8, none, 15⟩],
      [⟨1, some 2, 5⟩, ⟨3, some 4, 10⟩, ⟨5, some 7, 15⟩, ⟨8, none, 20⟩],
      "sum_cap", 20⟩,
    australia_study := ⟨5, 5⟩,
    professional_year_points := 5,
    naati_points := 5,
    partner := [("single", 10), ("skilled", 10), ("english_only", 5),
      ("none", 0)],
    state_nomination := [("190", 5), ("491", 15)] }

/-- A concrete applicant request, used to instantiate witnesses. -/
def reqDemo : CalcRequest :=
  { visa := "189", age := 28,
    english := ⟨Test.ielts, some 8, none, none, none, none⟩,
    education := "master",
    work_experience := ⟨3, 1⟩,
    australia_study := ⟨true, false⟩,
    professional_year := true, naati := false, partner := "single" }

/-- Witness for C7: the demo table is nonnegative, and the breakdown of
the demo request has the nine category keys and nonnegative values. -/
theorem calc_points_breakdown_nonneg_witness :
    (calc_points rulesDemo reqDemo).breakdown.map Prod.fst =
      ["age", "english", "education", "work_experience", "australia_study",
       "professional_year", "naati", "partner", "state_nomination"] ∧
    ∀ p ∈ (calc_points rulesDemo reqDemo).breakdown, 0 ≤ p.2 :=
  calc_points_breakdown_nonneg rulesDemo reqDemo (by decide)

/-- Modelled from the spec: the deployed rule table `rules.json` is not
part of the scoring-engine source tree; per §4.9 its `state_nomination`
mapping is expected to take subclass "189" to 0 (no state nomination
applies), either by an explicit 0 entry or by absence of the key. -/
def StateNomination189Zero (rules : Rules) : Prop :=
  mapGet rules.state_nomination "189" = 0

instance (rules : Rules) : Decidable (StateNomination189Zero rules) := by
  unfold StateNomination189Zero
  infer_instance

/-- C8: `score_state_nomination` returns 0 for a visa subclass absent from
the `state_nomination` mapping, and — under a table taking "189" to 0 —
a request with visa "189" gets a `state_nomination` breakdown entry of 0. -/
theorem state_nomination_lookup_spec (rules : Rules) (req : CalcRequest)
    (h189 : StateNomination189Zero rules) :
    (∀ v, rules.state_nomination.lookup v = none →
      score_state_nomination rules v = 0) ∧
    (req.visa = "189" →
      (calc_points rules req).breakdown.lookup "state_nomination" = some 0) := by
  constructor
  · intro v hv
    unfold score_state_nomination mapGet
    rw [hv]
  · intro hvisa
    have hlook : (calc_points rules req).breakdown.lookup "state_nomination" =
        some (score_state_nomination rules req.visa) := by
      simp [calc_points, score_optional, List.lookup]
    rw [hlook, hvisa]
    exact congrArg some h189

/-- Witness for C8: the demo table has no "189" key (so it reads as 0),
and the demo request (visa "189") gets a `state_nomination` entry of 0. -/
theorem state_nomination_lookup_spec_witness :
    (∀ v, rulesDemo.state_nomination.lookup v = none →
      score_state_nomination rulesDemo v = 0) ∧
    (reqDemo.visa = "189" →
      (calc_points rulesDemo reqDemo).breakdown.lookup "state_nomination" =
        some 0) :=
  state_nomination_lookup_spec rulesDemo reqDemo (by decide)

/-- C9: the returned total equals the sum of every value in the returned
breakdown mapping. -/
theorem calc_points_total_eq_sum (rules : Rules) (req : CalcRequest) :
    (calc_points rules req).total =
      ((calc_points rules req).breakdown.map Prod.snd).sum := rfl

end AUSWO
